import Mathlib

/-!
Verification of the quiz-solving pipeline of the Gemini browser extension:
response parsing, caching, wrong-answer blocking, retry policy, DOM
question extraction and orchestrator option filtering, shallowly embedded
from the JavaScript sources.
-/

namespace GeminiExt

/-! ### Character classes and string helpers (JS runtime semantics, ASCII) -/

/-- JS `\s` whitespace for the ASCII range (space, tab, LF, VT, FF, CR). -/
def jsWhitespace (c : Char) : Bool :=
  c = Char.ofNat 32 || c = '\t' || c = '\n' || c = Char.ofNat 11 ||
  c = Char.ofNat 12 || c = '\r'

def isAsciiUpper (c : Char) : Bool := 'A' ≤ c && c ≤ 'Z'

def isAsciiLower (c : Char) : Bool := 'a' ≤ c && c ≤ 'z'

def isAsciiDigit (c : Char) : Bool := '0' ≤ c && c ≤ '9'

/-- The class `[^A-Z0-9]` under the `i` flag matches exactly the complement
of ASCII letters and digits. -/
def isAsciiAlphaNum (c : Char) : Bool := isAsciiUpper c || isAsciiLower c || isAsciiDigit c

def asciiToLower (c : Char) : Char :=
  if isAsciiUpper c then Char.ofNat (c.toNat + 32) else c

def asciiToUpper (c : Char) : Char :=
  if isAsciiLower c then Char.ofNat (c.toNat - 32) else c

/-- JS `String.prototype.trim` on a character list. -/
def jsTrim (cs : List Char) : List Char :=
  ((cs.dropWhile jsWhitespace).reverse.dropWhile jsWhitespace).reverse

def strTrim (s : String) : String := String.mk (jsTrim s.data)

def lowerList (cs : List Char) : List Char := cs.map asciiToLower

def strLower (s : String) : String := String.mk (lowerList s.data)

/-- JS `String.prototype.includes` (substring test). -/
def listIncludes (hay needle : List Char) : Bool :=
  if needle.isPrefixOf hay then true
  else
    match hay with
    | [] => false
    | _ :: t => listIncludes t needle

/-! ### Response parser (`utils/response_parser.js`)

`parseGeminiQuizResponse(geminiResponse, options, questionType)` extracts
answer option texts from the model's free-form reply. -/

structure Part where
  text : String
deriving DecidableEq

structure Content where
  parts : List Part
deriving DecidableEq

structure Candidate where
  content : Option Content
deriving DecidableEq

structure GeminiResponse where
  candidates : List Candidate
deriving DecidableEq

/-- A serializable answer option `{text, value}` as passed to the parser. -/
structure SOption where
  text : String
  value : Option String
deriving DecidableEq

structure ParseResult where
  answers : List String
  explanation : Option String
  confidence : Nat
deriving DecidableEq

/-- Lines 34-38: `candidate.content.parts.filter(p => p.text).map(p => p.text).join(' ').trim()`. -/
def extractResponseText (candidate : Candidate) : List Char :=
  match candidate.content with
  | none => []
  | some content =>
      jsTrim (List.intercalate [Char.ofNat 32]
        (((content.parts.filter (fun p => p.text ≠ "")).map (fun p => p.text.data))))

/-- Index of the first case-insensitive occurrence of `"Explanation:"`
(the regex `/Explanation:\s*/i`), if any. -/
def findExplanationIdx : List Char → Option Nat
  | [] => none
  | c :: rest =>
      if ("explanation:".data).isPrefixOf (lowerList (c :: rest)) then some 0
      else (findExplanationIdx rest).map (· + 1)

/-- Lines 51-58: split `responseText` into the trimmed answer part and the
optional trimmed explanation after the `Explanation:` marker (the regex
consumes the marker and the following whitespace run greedily). -/
def splitExplanation (cs : List Char) : List Char × Option (List Char) :=
  match findExplanationIdx cs with
  | none => (cs, none)
  | some i =>
      let answerPart := jsTrim (cs.take i)
      let after := (cs.drop (i + ("explanation:".data).length)).dropWhile jsWhitespace
      (answerPart, some (jsTrim after))

/-- Line 63: `options.length > 0 ? String.fromCharCode(64 + options.length) : 'A'`. -/
def maxOptionLetter (optionCount : Nat) : Char :=
  if optionCount > 0 then Char.ofNat (64 + optionCount) else 'A'

/-- Membership in the character class `[A-<maxL>]` (case-sensitive). -/
def inLetterRange (maxL c : Char) : Bool := 'A' ≤ c && c ≤ maxL

/-- Membership in `[A-<maxL>]` under the `i` flag. -/
def inLetterRangeCI (maxL c : Char) : Bool :=
  inLetterRange maxL c || inLetterRange maxL (asciiToUpper c)

/-- Line 68: the test `^[A-<maxL>]$` — the whole answer part is one valid letter. -/
def singleExactLetter (maxL : Char) : List Char → Bool
  | [c] => inLetterRange maxL c
  | _ => false

/-- Line 72: first match of `(?:^|[^A-Z0-9])([A-<maxL>])(?:\.|\s|$)` with the
`i` flag.  The engine scans start positions left to right, so the first match
is the leftmost letter position that is bounded on the left by start-of-string
or a non-alphanumeric character and on the right by `.`, whitespace or
end-of-string.  `prev` carries the character before the current position. -/
def findBoundedLetter (maxL : Char) : Option Char → List Char → Option Char
  | _, [] => none
  | prev, c :: rest =>
      let leftOk := match prev with
        | none => true
        | some p => !isAsciiAlphaNum p
      let rightOk := match rest with
        | [] => true
        | d :: _ => d = '.' || jsWhitespace d
      if leftOk && inLetterRangeCI maxL c && rightOk then some (asciiToUpper c)
      else findBoundedLetter maxL (some c) rest

/-- Lines 66-92: mode-dependent letter extraction from the answer part.
`questionType` is the raw forwarded value; `none` models `undefined`. -/
def extractLetters (questionType : Option String) (maxL : Char) (answerPart : List Char) : List Char :=
  if questionType = some "single" then
    if singleExactLetter maxL answerPart then answerPart
    else
      match findBoundedLetter maxL none answerPart with
      | some c => [c]
      | none => []
  else
    (answerPart.filter (fun c => inLetterRange maxL c)).map asciiToUpper

/-- Line 100-101: `options[letter.charCodeAt(0) - 65]` — the option selected
by a letter, `undefined` (`none`) when the index falls outside the array
(letters below `'A'` would give a negative JS index). -/
def letterOption (options : List SOption) (l : Char) : Option SOption :=
  if l.toNat < 65 then none else options.get? (l.toNat - 65)

/-- Lines 99-109: map letters to option texts, discarding letters without a
corresponding option and repeated letters (first occurrence kept). -/
def validateLettersGo (options : List SOption) : List Char → List Char → List String → List String
  | [], _, acc => acc
  | l :: rest, seen, acc =>
      match letterOption options l with
      | some opt =>
          if seen.contains l then validateLettersGo options rest seen acc
          else validateLettersGo options rest (l :: seen) (acc ++ [opt.text])
      | none => validateLettersGo options rest seen acc

def validateLetters (options : List SOption) (letters : List Char) : List String :=
  validateLettersGo options letters [] []

/-- Lines 117-129: full-option-text fallback; for single choice an already
non-empty accumulator suppresses further pushes (the `return` inside the
`forEach` acts as a per-option skip). -/
def textFallbackGo (questionType : Option String) (respLower : List Char) :
    List SOption → List String → List String
  | [], acc => acc
  | o :: rest, acc =>
      if listIncludes respLower (lowerList o.text.data) && !acc.contains o.text then
        if questionType = some "single" && acc.length > 0 then
          textFallbackGo questionType respLower rest acc
        else textFallbackGo questionType respLower rest (acc ++ [o.text])
      else textFallbackGo questionType respLower rest acc

/-- Lines 60-137: the complete answer-set computation from the response text. -/
def finalAnswers (responseText : List Char) (options : List SOption)
    (questionType : Option String) : List String :=
  let answerPart := (splitExplanation responseText).1
  let maxL := maxOptionLetter options.length
  let letters := extractLetters questionType maxL answerPart
  let validated := validateLetters options letters
  if validated.length = 0 && options.length > 0 then
    let fb := textFallbackGo questionType (lowerList responseText) options []
    if questionType = some "single" && fb.length > 1 then fb.take 1 else fb
  else validated

/-- `ResponseParser.parseGeminiQuizResponse` (lines 24-149).  Throwing paths
are modelled as `Except.error` with the thrown message. -/
def parseGeminiQuizResponse (geminiResponse : GeminiResponse) (options : List SOption)
    (questionType : Option String) : Except String ParseResult :=
  match geminiResponse.candidates with
  | [] => .error "Invalid or empty response from Gemini API."
  | candidate :: _ =>
      let responseText := extractResponseText candidate
      if responseText = [] then .error "No answer text provided by Gemini."
      else
        let finalParsedAnswers := finalAnswers responseText options questionType
        if finalParsedAnswers.length = 0 then
          .error "ResponseParser: Failed to extract any valid answer from Gemini response text."
        else
          .ok { answers := finalParsedAnswers
                explanation := ((splitExplanation responseText).2).map String.mk
                confidence := 100 }

/-- A response whose first candidate carries exactly one text part. -/
def respOfText (s : String) : GeminiResponse :=
  { candidates := [{ content := some { parts := [{ text := s }] } }] }

/-! ### 32-bit string hashing shared by the cache and the blocker

Both `CacheManager.generateQuestionHash` and `SmartBlocker.generateSignature`
use the loop `hash = ((hash << 5) - hash) + char; hash |= 0`.  In JS the
`<< 5` wraps its result to a signed 32-bit integer before the subtraction,
and `|= 0` wraps the final sum. -/

/-- JS `ToInt32`: wrap an integer into `[-2^31, 2^31)`. -/
def toInt32 (n : Int) : Int :=
  let m := n % 4294967296
  if m < 2147483648 then m else m - 4294967296

def hashStep (h : Int) (c : Char) : Int :=
  toInt32 (toInt32 (h * 32) - h + c.toNat)

def hashString (cs : List Char) : Int := cs.foldl hashStep 0

/-! ### Association-list model of plain JS objects

String-keyed JS objects preserve insertion order; assignment to an existing
key keeps its position, assignment to a fresh key appends, and `delete`
removes the entry. -/

/-- `obj[k] = v`. -/
def alistSet {α : Type} (k : String) (v : α) (l : List (String × α)) : List (String × α) :=
  if l.any (fun p => p.1 = k) then l.map (fun p => if p.1 = k then (k, v) else p)
  else l ++ [(k, v)]

/-- `obj[k]`, `undefined` as `none`. -/
def alistLookup {α : Type} (k : String) : List (String × α) → Option α
  | [] => none
  | p :: rest => if p.1 = k then some p.2 else alistLookup k rest

/-! ### Cache manager (`utils/cache_manager.js`) -/

structure AnswerData where
  answers : List String
  explanation : Option String
  confidence : Nat
deriving DecidableEq

structure CacheEntry where
  data : AnswerData
  timestamp : Nat
deriving DecidableEq

/-- The cached-answers object: question hash → answer bundle. -/
abbrev CacheStore := List (String × CacheEntry)

/-- Line 53: `keys.reduce((a, b) => cachedAnswers[a].timestamp < cachedAnswers[b].timestamp ? a : b)`,
folded over the entries directly (object keys are unique). -/
def oldestPair : CacheStore → Option (String × CacheEntry)
  | [] => none
  | p :: rest =>
      some (rest.foldl (fun a b => if a.2.timestamp < b.2.timestamp then a else b) p)

/-- Line 54: `delete cachedAnswers[oldestKey]`. -/
def removeOldestEntry (store : CacheStore) : CacheStore :=
  match oldestPair store with
  | none => store
  | some p => store.eraseP (fun q => q.1 = p.1)

/-- `CacheManager.set` (lines 43-65): evict the oldest entry whenever the
store already holds `maxCacheSize = 50` entries, then insert or overwrite
the entry for `questionHash` stamped with the current time. -/
def setCacheEntry (store : CacheStore) (questionHash : String) (answerData : AnswerData)
    (now : Nat) : CacheStore :=
  let store1 := if 50 ≤ store.length then removeOldestEntry store else store
  alistSet questionHash { data := answerData, timestamp := now } store1

/-! ### Detected options (used by the cache hash, the blocker filter and the
orchestrator payload) -/

/-- An option as produced by `DOMDetector.extractQuestion` in
`src/unnamed/part_006` (`{text, value, element}`; only the input element's
checkbox-ness is relevant to the embedded logic). -/
structure DetOption where
  text : String
  value : String
  elemIsCheckbox : Bool
deriving DecidableEq

/-- `CacheManager.generateQuestionHash` (lines 74-97).  The invalid-argument
branch (non-string question or non-array options) is unreachable in the
typed embedding.  JS `Array.prototype.sort()` sorts the normalized option
texts lexicographically; `insertionSort` with `≤` on `String` produces that
sorted arrangement. -/
def generateQuestionHash (questionText : String) (options : List DetOption) : String :=
  let normalizedQuestionText := strLower (strTrim questionText)
  let sortedOptions := String.intercalate "|"
    (List.insertionSort (fun a b => a ≤ b) (options.map (fun opt => strLower (strTrim opt.text))))
  let combinedString := normalizedQuestionText ++ "::" ++ sortedOptions
  toString (hashString combinedString.data)

/-! ### Smart blocker (`utils/smart_blocker.js`) -/

/-- The punctuation class removed by `generateSignature`:
`[.,/#!$%^&*;:{}=\-_`~()]`. -/
def signaturePunct (c : Char) : Bool :=
  c = '.' || c = ',' || c = '/' || c = '#' || c = '!' || c = '$' || c = '%' ||
  c = '^' || c = '&' || c = '*' || c = ';' || c = ':' || c = Char.ofNat 123 ||
  c = Char.ofNat 125 || c = '=' || c = '-' || c = '_' || c = Char.ofNat 96 ||
  c = '~' || c = '(' || c = ')'

/-- Replace `/\s+/g` by a single space: each maximal whitespace run becomes
one space character. -/
def collapseWsGo : List Char → Bool → List Char
  | [], _ => []
  | c :: rest, prevWs =>
      if jsWhitespace c then
        if prevWs then collapseWsGo rest true
        else Char.ofNat 32 :: collapseWsGo rest true
      else c :: collapseWsGo rest false

/-- `SmartBlocker.generateSignature` (lines 15-35): empty/absent text maps to
`""`; otherwise lowercase, strip the punctuation set, collapse whitespace,
trim, then apply the 32-bit hash and render it in decimal. -/
def generateSignature (text : String) : String :=
  if text = "" then ""
  else
    let normalizedText :=
      jsTrim (collapseWsGo ((lowerList text.data).filter (fun c => !signaturePunct c)) false)
    toString (hashString normalizedText)

/-- Per-quiz blocker data: question signature → wrong-answer signatures. -/
abbrev QuizData := List (String × List String)

/-- The whole blocker store: `"courseId_quizId"` → per-quiz data. -/
abbrev BlockerStore := List (String × QuizData)

/-- `SmartBlocker.addWrongAnswer` (lines 54-80) as a pure state transformer
over the stored object.  A falsy (empty) parameter makes the call a logged
no-op. -/
def addWrongAnswer (store : BlockerStore) (courseId quizId questionSignature
    wrongAnswerSignature : String) : BlockerStore :=
  if courseId = "" || quizId = "" || questionSignature = "" || wrongAnswerSignature = "" then store
  else
    let quizSpecificKey := courseId ++ "_" ++ quizId
    let quizData := (alistLookup quizSpecificKey store).getD []
    let questionWrongAnswers := (alistLookup questionSignature quizData).getD []
    if questionWrongAnswers.contains wrongAnswerSignature then store
    else
      alistSet quizSpecificKey
        (alistSet questionSignature (questionWrongAnswers ++ [wrongAnswerSignature]) quizData)
        store

/-- `SmartBlocker.getWrongAnswers` (lines 90-107): missing parameters or
missing data yield `[]`. -/
def getWrongAnswers (store : BlockerStore) (courseId quizId questionSignature : String) :
    List String :=
  if courseId = "" || quizId = "" || questionSignature = "" then []
  else
    let quizData := (alistLookup (courseId ++ "_" ++ quizId) store).getD []
    (alistLookup questionSignature quizData).getD []

/-! ### API client (`utils/api_client.js`, `src/unnamed/part_005`)

`callGeminiApi` loops `for (i = 0; i <= retries; i++)` over attempts.  Each
attempt's environment-determined outcome is one of: the fetch rejecting with
a `TypeError` (network transport failure), a non-OK HTTP response carrying a
status, status text and optional structured error message, or an OK response
with parsed JSON data.  Timing (backoff, jitter, retry-delay hints) does not
affect which attempts happen and is not modelled. -/

inductive AttemptOutcome where
  | networkError : AttemptOutcome
  | httpError : Nat → String → Option String → AttemptOutcome
  | httpOk : GeminiResponse → AttemptOutcome
deriving DecidableEq

inductive ApiError where
  | network : ApiError
  | http : Nat → String → ApiError
  | emptyResponse : ApiError
deriving DecidableEq

/-- Lines 95-105: the descriptive error message for a non-OK HTTP status. -/
def geminiErrorMessage (status : Nat) (statusText : String) (errMsg : Option String) : String :=
  if status = 400 && errMsg.isSome then
    "Gemini API Error (400): " ++ errMsg.getD ""
  else if status = 401 || status = 403 then
    "Gemini API Error: Invalid or Unauthorized API Key. Please check your key."
  else if status = 429 then
    "Gemini API Error (429): Rate limit exceeded. Retrying automatically..."
  else if errMsg.isSome then
    "Gemini API Error: " ++ errMsg.getD ""
  else
    "Gemini API Error: " ++ toString status ++ " " ++ statusText

/-- Lines 93-117: what a single attempt yields — the thrown error (with its
`statusCode` for HTTP errors, none for the plain no-candidates error) or the
returned data. -/
def attemptResult (o : AttemptOutcome) : Except ApiError GeminiResponse :=
  match o with
  | .networkError => .error .network
  | .httpError status statusText errMsg =>
      .error (.http status (geminiErrorMessage status statusText errMsg))
  | .httpOk data =>
      if data.candidates.isEmpty then .error .emptyResponse else .ok data

/-- Line 122: `error instanceof TypeError || error.statusCode === 429 ||
error.statusCode >= 500`.  The plain no-candidates `Error` has no
`statusCode`, so it is never retried. -/
def retryableError : ApiError → Bool
  | .network => true
  | .http status _ => status = 429 || 500 ≤ status
  | .emptyResponse => false

/-- Lines 128-130: a 429 that survives all retries gets its message replaced. -/
def finalize429 : ApiError → ApiError
  | .http 429 _ =>
      .http 429 "Gemini API Error (429): Rate limit exceeded after retries. Wait a minute and try again, or use a higher-quota API key."
  | e => e

/-- The retry loop from attempt index `i` with `left = retries - i` further
attempts allowed (`i < retries` iff `left > 0`).  Returns the final result
and the total number of attempts performed. -/
def callGeminiApiAux (outcomes : Nat → AttemptOutcome) :
    Nat → Nat → Except ApiError GeminiResponse × Nat
  | i, left =>
      match attemptResult (outcomes i) with
      | .ok data => (.ok data, i + 1)
      | .error e =>
          match left with
          | l + 1 =>
              if retryableError e then callGeminiApiAux outcomes (i + 1) l
              else (.error (finalize429 e), i + 1)
          | 0 => (.error (finalize429 e), i + 1)

/-- `ApiClient.callGeminiApi` (lines 62-136) run against an environment of
attempt outcomes; the key-presence and prompt-shape guards precede the loop
and are not part of the retry policy. -/
def callGeminiApi (retries : Nat) (outcomes : Nat → AttemptOutcome) :
    Except ApiError GeminiResponse × Nat :=
  callGeminiApiAux outcomes 0 retries

/-! ### DOM detector (`DOMDetector.extractQuestion`, `src/unnamed/part_006`)

The DOM queries are abstracted into a container record holding, per selector
group, the text the queries would return; the processing applied to those
texts is translated from the source. -/

/-- One raw option element as seen by lines 285-344: whether an
`input[type=radio|checkbox]` is found inside it, that input's kind and
`value`, the text contents of code-line elements inside it (non-gutter),
the text content of the first element found by the text-selector chain
(which falls back to the option element itself, hence always a string), and
the option element's own text content. -/
structure OptionElem where
  hasInput : Bool
  inputIsCheckbox : Bool
  inputValue : String
  codeLines : List String
  chainText : String
  ownText : String
deriving DecidableEq

/-- The extraction-relevant view of one question container: the
`textContent` of the first match of each question-text selector (`none` if
the selector matches nothing), the Monaco textarea value if present, the
code-line texts, and the raw option elements. -/
structure Container where
  questionTextCandidates : List (Option String)
  monacoValue : Option String
  codeLineTexts : List String
  optionElems : List OptionElem
deriving DecidableEq

/-- The question object returned by `extractQuestion` (lines 363-368); its
keys are `container`, `question`, `options` and `questionType`. -/
structure DetectedQuestion where
  question : String
  options : List DetOption
  questionType : String
deriving DecidableEq

/-- Models the JavaScript property access `questionData.type` performed by
the orchestrator: the object returned by `extractQuestion` has no `type`
key (its key is `questionType`), so the access yields `undefined`. -/
def DetectedQuestion.jsTypeProp (_ : DetectedQuestion) : Option String := none

/-- Lines 184-194 (selector loop): the first selector whose element exists
and has non-empty trimmed text wins. -/
def firstNonemptyTrim : List (Option String) → Option String
  | [] => none
  | none :: rest => firstNonemptyTrim rest
  | some s :: rest =>
      if strTrim s ≠ "" then some (strTrim s) else firstNonemptyTrim rest

/-- Line 190: `replace(/^\s*\d+\.\s*|^[A-Z]\.\s*/, '')` — strip one leading
enumerator (whitespace, digits and a dot, or a capital letter and a dot). -/
def stripLeadingEnum (cs : List Char) : List Char :=
  let afterWs := cs.dropWhile jsWhitespace
  let digits := afterWs.takeWhile isAsciiDigit
  if digits ≠ [] && (afterWs.drop digits.length).head? = some '.' then
    ((afterWs.drop digits.length).drop 1).dropWhile jsWhitespace
  else
    match cs with
    | c :: '.' :: rest => if isAsciiUpper c then rest.dropWhile jsWhitespace else cs
    | _ => cs

/-- Lines 184-199: extracted question text after enumerator cleanup, `none`
when no selector produced text. -/
def cleanedQuestionTextOf (c : Container) : Option String :=
  (firstNonemptyTrim c.questionTextCandidates).map
    (fun t => strTrim (String.mk (stripLeadingEnum t.data)))

/-- Lines 204-237: code snippet — the Monaco textarea value when non-empty
after trimming, else the collected code lines joined with newlines and
trimmed (possibly the empty string), else `null`. -/
def codeSnippetOf (c : Container) : Option String :=
  let lineFallback : Option String :=
    if c.codeLineTexts.isEmpty then none
    else some (strTrim (String.intercalate "\n" c.codeLineTexts))
  match c.monacoValue with
  | some v => if strTrim v ≠ "" then some (strTrim v) else lineFallback
  | none => lineFallback

/-- JS truthiness of the nullable `codeSnippet` string. -/
def codeTruthy : Option String → Bool
  | none => false
  | some s => s ≠ ""

/-- Line 319 / line 322: strip one leading `X. ` enumerator from an option
text (`^[A-Z]\.\s*` for the chain text, `^[a-zA-Z]\.\s*|^[0-9]\.\s*` for the
fallback). -/
def stripUpperEnum (cs : List Char) : List Char :=
  match cs with
  | c :: '.' :: rest => if isAsciiUpper c then rest.dropWhile jsWhitespace else cs
  | _ => cs

def stripAlphaOrDigitEnum (cs : List Char) : List Char :=
  match cs with
  | c :: '.' :: rest =>
      if isAsciiUpper c || isAsciiLower c || isAsciiDigit c then rest.dropWhile jsWhitespace
      else cs
  | _ => cs

/-- `DOMDetector._cleanMonacoEditorArtifacts` (lines 377-382): global
removal of the Monaco UI-hint strings (with surrounding whitespace) and of
leaked `.monaco-list.list_id_<n>:...{...}` stylesheet fragments, then trim.
`tryMonacoArtifact` returns the remainder after one match starting at the
head of the input, if the regex matches there. -/
def tryUiHint (cs : List Char) : Option (List Char) :=
  let afterWs := cs.dropWhile jsWhitespace
  if ("Enter to Rename".data).isPrefixOf afterWs then
    some ((afterWs.drop ("Enter to Rename".data).length).dropWhile jsWhitespace)
  else if ("Shift+Enter to Preview".data).isPrefixOf afterWs then
    some ((afterWs.drop ("Shift+Enter to Preview".data).length).dropWhile jsWhitespace)
  else none

/-- After the literal `.monaco-list.list_id_`, match `\d+:` then
`[^\s]+\s*\{[^}]*?\}` with the regex engine's greedy/backtracking choice of
the opening brace: the rightmost viable `\x7b` is tried first, and a
candidate is viable when a `\x7d` follows it. -/
def braceCandidates (run : List Char) (rest : List Char) : List (List Char) :=
  let afterRunBrace : List (List Char) :=
    if run ≠ [] && (rest.dropWhile jsWhitespace).head? = some (Char.ofNat 123) then
      [(rest.dropWhile jsWhitespace).drop 1]
    else []
  let inRunBraces : List (List Char) :=
    (List.range run.length).reverse.filterMap (fun j =>
      if 1 ≤ j && run.get? j = some (Char.ofNat 123) then
        some (run.drop (j + 1) ++ rest)
      else none)
  afterRunBrace ++ inRunBraces

def firstCloseBrace : List Char → Option (List Char)
  | [] => none
  | c :: rest => if c = Char.ofNat 125 then some rest else firstCloseBrace rest

def tryMonacoCss (cs : List Char) : Option (List Char) :=
  if (".monaco-list.list_id_".data).isPrefixOf cs then
    let afterLit := cs.drop (".monaco-list.list_id_".data).length
    let digits := afterLit.takeWhile isAsciiDigit
    if digits ≠ [] && (afterLit.drop digits.length).head? = some ':' then
      let afterColon := (afterLit.drop digits.length).drop 1
      let run := afterColon.takeWhile (fun c => !jsWhitespace c)
      let rest := afterColon.drop run.length
      (braceCandidates run rest).firstM firstCloseBrace
    else none
  else none

def tryMonacoArtifact (cs : List Char) : Option (List Char) :=
  match tryUiHint cs with
  | some r => some r
  | none => tryMonacoCss cs

/-- Global replace scan; every match consumes at least one character, so the
input length is sufficient fuel. -/
def cleanMonacoGo : Nat → List Char → List Char
  | 0, cs => cs
  | _ + 1, [] => []
  | fuel + 1, c :: rest =>
      match tryMonacoArtifact (c :: rest) with
      | some rest1 => cleanMonacoGo fuel rest1
      | none => c :: cleanMonacoGo fuel rest

def cleanMonacoEditorArtifacts (text : String) : String :=
  strTrim (String.mk (cleanMonacoGo text.data.length text.data))

/-- Lines 285-344: extraction of one option from its raw element.  The
option is kept only when both a non-empty text and an input element were
found. -/
def extractOption (index : Nat) (oe : OptionElem) : Option DetOption :=
  let joinedCode := strTrim (String.intercalate "\n" oe.codeLines)
  let optionText0 : String :=
    if !oe.codeLines.isEmpty && 5 < joinedCode.length then joinedCode
    else if strTrim oe.chainText ≠ "" then
      strTrim (String.mk (stripUpperEnum (strTrim oe.chainText).data))
    else
      strTrim (String.mk (stripAlphaOrDigitEnum (strTrim oe.ownText).data))
  let optionText :=
    if optionText0 ≠ "" then cleanMonacoEditorArtifacts optionText0 else optionText0
  let optionValue : String :=
    if oe.hasInput && oe.inputValue ≠ "" then oe.inputValue
    else if optionText ≠ "" then
      String.mk (((optionText.data.map
        (fun c => if isAsciiAlphaNum c then c else '_')).map asciiToLower).take 50)
    else "option_" ++ toString index
  if optionText ≠ "" && oe.hasInput then
    some { text := optionText, value := optionValue, elemIsCheckbox := oe.inputIsCheckbox }
  else none

/-- `DOMDetector.extractQuestion` (lines 167-369).  Note the order in the
source: the question text is extracted and validated against the 10-character
floor (line 197) before any code extraction, so the `!questionText &&
codeSnippet` branch of the combine step can never fire. -/
def extractQuestion (c : Container) : Option DetectedQuestion :=
  match cleanedQuestionTextOf c with
  | none => none
  | some qt =>
      if qt.data.length < 10 then none
      else
        let code := codeSnippetOf c
        let questionText :=
          if qt ≠ "" && codeTruthy code then
            qt ++ "\n\n```javascript\n" ++ code.getD "" ++ "\n```"
          else if qt = "" && codeTruthy code then
            "```javascript\n" ++ code.getD "" ++ "\n```"
          else qt
        let options := (c.optionElems.enum).filterMap (fun p => extractOption p.1 p.2)
        if options.length < 2 then none
        else
          let questionType :=
            if options.any (fun o => o.elemIsCheckbox) then "multiple" else "single"
          some { question := questionText, options := options, questionType := questionType }

/-! ### Orchestrator (`content_scripts/coursera_solver.js`) -/

/-- The outcome of the per-question smart-blocker filtering step. -/
inductive FilterOutcome where
  | use : List DetOption → Bool → FilterOutcome
  | skipQuestion : FilterOutcome
deriving DecidableEq

/-- Lines 154-184 of `detectAndSolveQuizzes`: filter blocked options; if the
filter would empty a non-empty option set, fall back to the original options
with a warning (`use options true`); an empty original set is skipped. -/
def applyBlockerFilter (options : List DetOption) (blockedAnswerSignatures : List String) :
    FilterOutcome :=
  if 0 < blockedAnswerSignatures.length then
    let filteredOptions :=
      options.filter (fun o => !(blockedAnswerSignatures.contains (generateSignature o.text)))
    if filteredOptions.length = 0 && 0 < options.length then .use options true
    else if filteredOptions.length = 0 then .skipQuestion
    else .use filteredOptions false
  else .use options false

/-- The serializable payload of a `SOLVE_QUESTION_REQUEST` (lines 220-224). -/
structure SolvePayload where
  question : String
  options : List SOption
  questionType : Option String
deriving DecidableEq

/-- Lines 220-224: `{question: questionData.question, options:
filteredOptions.map(o => ({text: o.text, value: o.value})), questionType:
questionData.type}` — the forwarded type is the (absent) `type` property. -/
def buildSolvePayload (questionData : DetectedQuestion) (filteredOptions : List DetOption) :
    SolvePayload :=
  { question := questionData.question
    options := filteredOptions.map (fun o => { text := o.text, value := some o.value })
    questionType := questionData.jsTypeProp }

/-! ### Concrete stores and containers used by counterexamples and witnesses -/

def demoAnswerData : AnswerData := { answers := ["alpha"], explanation := none, confidence := 100 }

/-- A cache at the 50-entry cap: keys `k0..k49`, timestamps `0..49`. -/
def demoCacheStore : CacheStore :=
  (List.range 50).map (fun i => ("k" ++ toString i, { data := demoAnswerData, timestamp := i }))

def demoOptionElem (t : String) (cb : Bool) : OptionElem :=
  { hasInput := true, inputIsCheckbox := cb, inputValue := "val" ++ t,
    codeLines := [], chainText := t, ownText := t }

/-- A container exposing only a code block (no question text) and two valid
options. -/
def demoCodeOnlyContainer : Container :=
  { questionTextCandidates := [none, none]
    monacoValue := some "let x = 1;"
    codeLineTexts := []
    optionElems := [demoOptionElem "Option one" false, demoOptionElem "Option two" false] }

/-- A container with a 21-character question text, a code block and two
options. -/
def demoBothContainer : Container :=
  { questionTextCandidates := [some "What does this print?"]
    monacoValue := some "let x = 1;"
    codeLineTexts := []
    optionElems := [demoOptionElem "Option one" false, demoOptionElem "Option two" true] }

end GeminiExt

namespace GeminiExt

/-! ## Theorems -/

/-- C1: the single-mode extraction on the two specified inputs.  `"B"`
against four options hits strategy (a) (the whole trimmed answer part is one
valid letter); `"The answer is C."` against three options hits strategy (b)
(a valid letter bounded by a non-alphanumeric on the left and `.` on the
right, first match wins). -/
theorem single_mode_extracts_specified_letters
    (t0 t1 t2 t3 u0 u1 u2 : String) (v0 v1 v2 v3 w0 w1 w2 : Option String) :
    parseGeminiQuizResponse (respOfText "B")
        [⟨t0, v0⟩, ⟨t1, v1⟩, ⟨t2, v2⟩, ⟨t3, v3⟩] (some "single")
      = .ok { answers := [t1], explanation := none, confidence := 100 }
    ∧ parseGeminiQuizResponse (respOfText "The answer is C.")
        [⟨u0, w0⟩, ⟨u1, w1⟩, ⟨u2, w2⟩] (some "single")
      = .ok { answers := [u2], explanation := none, confidence := 100 } :=
  ⟨rfl, rfl⟩

/-- C2: the multiple-mode extraction on the two specified inputs.  `"A, C"`
against four options yields the first and third option texts in that order;
`"A, A, C"` yields them once each (the duplicate `A` is dropped by the
seen-letters set). -/
theorem multiple_mode_collects_letters_deduplicated
    (t0 t1 t2 t3 : String) (v0 v1 v2 v3 : Option String) :
    parseGeminiQuizResponse (respOfText "A, C")
        [⟨t0, v0⟩, ⟨t1, v1⟩, ⟨t2, v2⟩, ⟨t3, v3⟩] (some "multiple")
      = .ok { answers := [t0, t2], explanation := none, confidence := 100 }
    ∧ parseGeminiQuizResponse (respOfText "A, A, C")
        [⟨t0, v0⟩, ⟨t1, v1⟩, ⟨t2, v2⟩, ⟨t3, v3⟩] (some "multiple")
      = .ok { answers := [t0, t2], explanation := none, confidence := 100 } :=
  ⟨rfl, rfl⟩

/-! Auxiliary lemmas: the parser inspects `questionType` only through the
test `questionType === 'single'`. -/

theorem textFallbackGo_of_ne_single (questionType : Option String)
    (h : questionType ≠ some "single") (respLower : List Char) :
    ∀ (opts : List SOption) (acc : List String),
      textFallbackGo questionType respLower opts acc
        = textFallbackGo (some "multiple") respLower opts acc := by
  intro opts
  induction opts with
  | nil => intro acc; rfl
  | cons o rest ih =>
      intro acc
      have h1 : (questionType = some "single") = False := eq_false h
      have h2 : ((some "multiple" : Option String) = some "single") = False := by
        simp
      simp [textFallbackGo, h1, h2, ih]

theorem extractLetters_of_ne_single (questionType : Option String)
    (h : questionType ≠ some "single") (maxL : Char) (answerPart : List Char) :
    extractLetters questionType maxL answerPart
      = extractLetters (some "multiple") maxL answerPart := by
  have h2 : ¬ ((some "multiple" : Option String) = some "single") := by simp
  unfold extractLetters
  rw [if_neg h, if_neg h2]

theorem finalAnswers_of_ne_single (responseText : List Char) (options : List SOption)
    (questionType : Option String) (h : questionType ≠ some "single") :
    finalAnswers responseText options questionType
      = finalAnswers responseText options (some "multiple") := by
  have h1 : (questionType = some "single") = False := eq_false h
  have h2 : ((some "multiple" : Option String) = some "single") = False := by simp
  simp only [finalAnswers, extractLetters_of_ne_single questionType h,
    textFallbackGo_of_ne_single questionType h, h1, h2]

/-- C10: (1) the parser takes the single-choice strategies only when the
forwarded question type is exactly the string `'single'`; any other value
(including `undefined`, modelled as `none`) behaves exactly like
`'multiple'`; (2) the orchestrator's solve payload forwards
`questionData.type`, a property the detector's returned object does not
carry, so every detected question is solved with an `undefined` question
type. -/
theorem non_single_type_takes_multiple_path :
    (∀ (resp : GeminiResponse) (options : List SOption) (questionType : Option String),
      questionType ≠ some "single" →
        parseGeminiQuizResponse resp options questionType
          = parseGeminiQuizResponse resp options (some "multiple"))
    ∧ (∀ (c : Container) (q : DetectedQuestion) (filteredOptions : List DetOption),
        extractQuestion c = some q →
          (buildSolvePayload q filteredOptions).questionType = none) := by
  constructor
  · intro resp options questionType h
    unfold parseGeminiQuizResponse
    cases resp.candidates with
    | nil => rfl
    | cons candidate rest =>
        simp only [finalAnswers_of_ne_single _ _ _ h]
  · intro c q filteredOptions _
    rfl

/-- C10 witness: the question detected in the concrete container
`demoBothContainer` is forwarded with an `undefined` question type, and a
concrete response parses identically under `none` and `'multiple'`. -/
theorem non_single_type_takes_multiple_path_witness :
    ((extractQuestion demoBothContainer).map
        (fun q => (buildSolvePayload q []).questionType)) = some none
    ∧ parseGeminiQuizResponse (respOfText "A, C") [⟨"x", none⟩, ⟨"y", none⟩] none
      = parseGeminiQuizResponse (respOfText "A, C") [⟨"x", none⟩, ⟨"y", none⟩] (some "multiple") := by
  constructor
  · cases hq : extractQuestion demoBothContainer with
    | none => exact absurd hq (by decide)
    | some q =>
        simp [non_single_type_takes_multiple_path.2 demoBothContainer q [] hq]
  · exact non_single_type_takes_multiple_path.1 _ _ none (by simp)

/-! Auxiliary lemma: every run of the retry loop performs at least one
attempt past its starting index. -/

theorem callGeminiApiAux_attempts_lower (outcomes : Nat → AttemptOutcome) :
    ∀ (left i : Nat), i + 1 ≤ (callGeminiApiAux outcomes i left).2 := by
  intro left
  induction left with
  | zero =>
      intro i
      unfold callGeminiApiAux
      cases attemptResult (outcomes i) <;> simp
  | succ l ih =>
      intro i
      unfold callGeminiApiAux
      cases attemptResult (outcomes i) with
      | ok d => simp
      | error e =>
          by_cases hr : retryableError e = true
          · simpa [hr] using le_trans (Nat.le_succ (i + 1)) (ih (i + 1))
          · simp [hr]

/-- C5: the retry loop retries only when the caught error is a network
transport failure, HTTP 429, or HTTP status ≥ 500 (conjunct 2: a second
attempt implies the first attempt failed retryably); a first attempt
answering HTTP 400, 401 or 403 ends the call after exactly one attempt with
the mapped descriptive error (conjunct 1); for 401 that error's message is
the invalid-key message (conjunct 3). -/
theorem http_400_401_403_fail_without_retry (retries : Nat) (outcomes : Nat → AttemptOutcome) :
    (∀ (s : Nat) (stext : String) (em : Option String),
      outcomes 0 = .httpError s stext em → s = 400 ∨ s = 401 ∨ s = 403 →
        callGeminiApi retries outcomes
          = (.error (.http s (geminiErrorMessage s stext em)), 1))
    ∧ (2 ≤ (callGeminiApi retries outcomes).2 →
        ∃ e, attemptResult (outcomes 0) = .error e ∧ retryableError e = true)
    ∧ (∀ (stext : String) (em : Option String),
        geminiErrorMessage 401 stext em
          = "Gemini API Error: Invalid or Unauthorized API Key. Please check your key.") := by
  refine ⟨?_, ?_, ?_⟩
  · intro s stext em h0 hs
    have hres : attemptResult (outcomes 0)
        = .error (.http s (geminiErrorMessage s stext em)) := by
      rw [h0]; rfl
    have hnr : retryableError (.http s (geminiErrorMessage s stext em)) = false := by
      rcases hs with h | h | h <;> subst h <;> rfl
    have hfin : finalize429 (.http s (geminiErrorMessage s stext em))
        = .http s (geminiErrorMessage s stext em) := by
      rcases hs with h | h | h <;> subst h <;> rfl
    unfold callGeminiApi callGeminiApiAux
    rw [hres]
    cases retries with
    | zero => simp [hfin]
    | succ r => simp [hnr, hfin]
  · intro h2
    unfold callGeminiApi callGeminiApiAux at h2
    cases hres : attemptResult (outcomes 0) with
    | ok d => rw [hres] at h2; simp at h2
    | error e =>
        rw [hres] at h2
        cases retries with
        | zero => simp at h2
        | succ r =>
            by_cases hr : retryableError e = true
            · exact ⟨e, rfl, hr⟩
            · simp [hr] at h2
  · intro stext em
    rfl

/-- C5 witness: a run whose every attempt answers HTTP 401 makes exactly one
attempt and surfaces the invalid-key error. -/
theorem http_400_401_403_fail_without_retry_witness :
    callGeminiApi 5 (fun _ => .httpError 401 "Unauthorized" none)
      = (.error (.http 401
          "Gemini API Error: Invalid or Unauthorized API Key. Please check your key."), 1) := by
  have h := (http_400_401_403_fail_without_retry 5
      (fun _ => .httpError 401 "Unauthorized" none)).1 401 "Unauthorized" none rfl
    (Or.inr (Or.inl rfl))
  simpa using h

/-- C7: for a non-empty option set, the blocker-filter step never skips the
question and always hands a non-empty option list to the prompt; when
filtering would remove every option it returns the unfiltered original set
flagged as a warning. -/
theorem blocker_filter_never_empties_options (options : List DetOption)
    (blockedAnswerSignatures : List String) (hne : options ≠ []) :
    (∀ (used : List DetOption) (warned : Bool),
      applyBlockerFilter options blockedAnswerSignatures = .use used warned → used ≠ [])
    ∧ (blockedAnswerSignatures ≠ [] →
        (options.filter
          (fun o => !(blockedAnswerSignatures.contains (generateSignature o.text)))) = [] →
        applyBlockerFilter options blockedAnswerSignatures = .use options true)
    ∧ applyBlockerFilter options blockedAnswerSignatures ≠ .skipQuestion := by
  have hlen : 0 < options.length := List.length_pos.mpr hne
  by_cases hb : 0 < blockedAnswerSignatures.length
  · by_cases hf : (options.filter
        (fun o => !(blockedAnswerSignatures.contains (generateSignature o.text)))).length = 0
    · have heq : applyBlockerFilter options blockedAnswerSignatures = .use options true := by
        simp only [applyBlockerFilter, if_pos hb]
        rw [if_pos (by rw [decide_eq_true hf, decide_eq_true hlen]; rfl)]
      refine ⟨?_, fun _ _ => heq, by rw [heq]; simp⟩
      intro used warned hu
      rw [heq] at hu
      cases hu
      exact hne
    · have heq : applyBlockerFilter options blockedAnswerSignatures
          = .use (options.filter
              (fun o => !(blockedAnswerSignatures.contains (generateSignature o.text)))) false := by
        simp only [applyBlockerFilter, if_pos hb]
        rw [if_neg (by rw [decide_eq_false hf, Bool.false_and]; exact Bool.false_ne_true),
          if_neg hf]
      refine ⟨?_, ?_, by rw [heq]; simp⟩
      · intro used warned hu
        rw [heq] at hu
        cases hu
        intro hfe
        exact hf (by rw [hfe]; rfl)
      · intro _ hfe
        exact absurd (by rw [hfe]; rfl) hf
  · have heq : applyBlockerFilter options blockedAnswerSignatures = .use options false := by
      simp only [applyBlockerFilter, if_neg hb]
    refine ⟨?_, ?_, by rw [heq]; simp⟩
    · intro used warned hu
      rw [heq] at hu
      cases hu
      exact hne
    · intro hbne
      exact absurd (List.length_pos.mpr hbne) hb

/-- C7 witness: with both options previously marked wrong, the filter step
returns the original two options with a warning. -/
theorem blocker_filter_never_empties_options_witness :
    applyBlockerFilter [⟨"alpha", "v1", false⟩, ⟨"beta", "v2", false⟩]
        [generateSignature "alpha", generateSignature "beta"]
      = .use [⟨"alpha", "v1", false⟩, ⟨"beta", "v2", false⟩] true := by
  exact (blocker_filter_never_empties_options _ _ (by decide)).2.1 (by decide) (by decide)

/-! Auxiliary lemma: object assignment followed by lookup of the same key. -/

theorem alistLookup_alistSet_self {α : Type} (k : String) (v : α) (l : List (String × α)) :
    alistLookup k (alistSet k v l) = some v := by
  induction l with
  | nil => simp [alistSet, alistLookup]
  | cons p rest ih =>
      by_cases hp : p.1 = k
      · simp [alistSet, alistLookup, hp]
      · by_cases hany : rest.any (fun q => q.1 = k)
        · have h1 : alistSet k v (p :: rest)
              = p :: rest.map (fun q => if q.1 = k then (k, v) else q) := by
            simp [alistSet, hp, hany]
          have h2 : alistSet k v rest
              = rest.map (fun q => if q.1 = k then (k, v) else q) := by
            simp [alistSet, hany]
          rw [h1, alistLookup, if_neg hp, ← h2, ih]
        · have h1 : alistSet k v (p :: rest) = p :: (rest ++ [(k, v)]) := by
            simp [alistSet, hp, hany]
          have h2 : alistSet k v rest = rest ++ [(k, v)] := by
            simp [alistSet, hany]
          rw [h1, alistLookup, if_neg hp, ← h2, ih]

/-- C9: `addWrongAnswer` is an idempotent append — repeating a call with
identical arguments is the identity (conjunct 1), and a successful first
call appends the signature exactly once, after which it is recorded exactly
once (conjuncts 2 and 3); `getWrongAnswers` of a question signature with no
recorded data is `[]` (conjuncts 4 and 5). -/
theorem addWrongAnswer_idempotent_getWrongAnswers_total
    (store : BlockerStore) (courseId quizId qs ws : String) :
    addWrongAnswer (addWrongAnswer store courseId quizId qs ws) courseId quizId qs ws
      = addWrongAnswer store courseId quizId qs ws
    ∧ (courseId ≠ "" → quizId ≠ "" → qs ≠ "" → ws ≠ "" →
        ¬ (getWrongAnswers store courseId quizId qs).contains ws →
        getWrongAnswers (addWrongAnswer store courseId quizId qs ws) courseId quizId qs
          = getWrongAnswers store courseId quizId qs ++ [ws])
    ∧ (courseId ≠ "" → quizId ≠ "" → qs ≠ "" → ws ≠ "" →
        ¬ (getWrongAnswers store courseId quizId qs).contains ws →
        ((getWrongAnswers
            (addWrongAnswer (addWrongAnswer store courseId quizId qs ws) courseId quizId qs ws)
            courseId quizId qs).count ws) = 1)
    ∧ (alistLookup (courseId ++ "_" ++ quizId) store = none →
        getWrongAnswers store courseId quizId qs = [])
    ∧ (∀ qd, alistLookup (courseId ++ "_" ++ quizId) store = some qd →
        alistLookup qs qd = none → getWrongAnswers store courseId quizId qs = []) := by
  have hgetNone1 : alistLookup (courseId ++ "_" ++ quizId) store = none →
      getWrongAnswers store courseId quizId qs = [] := by
    intro h
    unfold getWrongAnswers
    by_cases hg : (courseId = "" || quizId = "" || qs = "") = true
    · rw [if_pos hg]
    · rw [if_neg hg]
      simp [h, alistLookup]
  have hgetNone2 : ∀ qd, alistLookup (courseId ++ "_" ++ quizId) store = some qd →
      alistLookup qs qd = none → getWrongAnswers store courseId quizId qs = [] := by
    intro qd hqd hqs2
    unfold getWrongAnswers
    by_cases hg : (courseId = "" || quizId = "" || qs = "") = true
    · rw [if_pos hg]
    · rw [if_neg hg]
      simp [hqd, hqs2]
  by_cases hempty : (courseId = "" || quizId = "" || qs = "" || ws = "") = true
  · have hid : ∀ s : BlockerStore, addWrongAnswer s courseId quizId qs ws = s := by
      intro s
      unfold addWrongAnswer
      rw [if_pos hempty]
    refine ⟨by rw [hid, hid], ?_, ?_, hgetNone1, hgetNone2⟩
    · intro hc hq hqs hws _
      exact absurd hempty (by simp [hc, hq, hqs, hws])
    · intro hc hq hqs hws _
      exact absurd hempty (by simp [hc, hq, hqs, hws])
  · have hc : ¬ courseId = "" := fun h => hempty (by simp [h])
    have hq : ¬ quizId = "" := fun h => hempty (by simp [h])
    have hqs : ¬ qs = "" := fun h => hempty (by simp [h])
    have hget : getWrongAnswers store courseId quizId qs
        = (alistLookup qs
            ((alistLookup (courseId ++ "_" ++ quizId) store).getD [])).getD [] := by
      unfold getWrongAnswers
      rw [if_neg (by simp [hc, hq, hqs])]
    by_cases hcont : ((alistLookup qs
        ((alistLookup (courseId ++ "_" ++ quizId) store).getD [])).getD []).contains ws = true
    · have hid : addWrongAnswer store courseId quizId qs ws = store := by
        simp only [addWrongAnswer]
        rw [if_neg hempty, if_pos hcont]
      refine ⟨by rw [hid, hid], ?_, ?_, hgetNone1, hgetNone2⟩
      · intro _ _ _ _ hncont
        rw [hget] at hncont
        exact absurd hcont hncont
      · intro _ _ _ _ hncont
        rw [hget] at hncont
        exact absurd hcont hncont
    · have hadd : addWrongAnswer store courseId quizId qs ws
          = alistSet (courseId ++ "_" ++ quizId)
              (alistSet qs
                ((alistLookup qs
                  ((alistLookup (courseId ++ "_" ++ quizId) store).getD [])).getD [] ++ [ws])
                ((alistLookup (courseId ++ "_" ++ quizId) store).getD []))
              store := by
        simp only [addWrongAnswer]
        rw [if_neg hempty, if_neg hcont]
      have hlookAfter : alistLookup qs ((alistLookup (courseId ++ "_" ++ quizId)
            (addWrongAnswer store courseId quizId qs ws)).getD [])
          = some ((alistLookup qs
              ((alistLookup (courseId ++ "_" ++ quizId) store).getD [])).getD [] ++ [ws]) := by
        rw [hadd, alistLookup_alistSet_self, Option.getD_some, alistLookup_alistSet_self]
      have hlook : getWrongAnswers (addWrongAnswer store courseId quizId qs ws)
          courseId quizId qs
          = (alistLookup qs
              ((alistLookup (courseId ++ "_" ++ quizId) store).getD [])).getD [] ++ [ws] := by
        simp only [getWrongAnswers]
        rw [if_neg (by simp [hc, hq, hqs]), hlookAfter, Option.getD_some]
      have hnoop : ∀ s : BlockerStore,
          ((alistLookup qs
            ((alistLookup (courseId ++ "_" ++ quizId) s).getD [])).getD []).contains ws = true →
          addWrongAnswer s courseId quizId qs ws = s := by
        intro s hcs
        simp only [addWrongAnswer]
        rw [if_neg hempty, if_pos hcs]
      have hsecond : addWrongAnswer (addWrongAnswer store courseId quizId qs ws)
          courseId quizId qs ws = addWrongAnswer store courseId quizId qs ws := by
        refine hnoop _ ?_
        rw [hlookAfter, Option.getD_some]
        exact List.elem_eq_true_of_mem (by simp)
      refine ⟨hsecond, ?_, ?_, hgetNone1, hgetNone2⟩
      · intro _ _ _ _ _
        rw [hlook, hget]
      · intro _ _ _ _ hncont
        rw [hsecond, hlook]
        have hnm : ws ∉ (alistLookup qs
            ((alistLookup (courseId ++ "_" ++ quizId) store).getD [])).getD [] := by
          intro hm
          exact hcont (List.elem_eq_true_of_mem hm)
        rw [List.count_append]
        simp [List.count_eq_zero.mpr hnm]

/-- C9 witness: a duplicate `addWrongAnswer` on the empty store leaves one
copy, and `getWrongAnswers` on a store holding nothing for the question is
empty. -/
theorem addWrongAnswer_idempotent_witness :
    addWrongAnswer (addWrongAnswer [] "course" "quiz" "sigQ" "sigW") "course" "quiz" "sigQ" "sigW"
      = addWrongAnswer [] "course" "quiz" "sigQ" "sigW"
    ∧ getWrongAnswers
        (addWrongAnswer (addWrongAnswer [] "course" "quiz" "sigQ" "sigW")
          "course" "quiz" "sigQ" "sigW") "course" "quiz" "sigQ" = ["sigW"]
    ∧ getWrongAnswers [] "course" "quiz" "sigQ" = [] := by
  have h := addWrongAnswer_idempotent_getWrongAnswers_total [] "course" "quiz" "sigQ" "sigW"
  refine ⟨h.1, ?_, h.2.2.2.1 rfl⟩
  rw [h.1]
  have h2 := h.2.1 (by decide) (by decide) (by decide) (by decide) (by decide)
  rw [h2]
  rfl

/-- C8: the cache hash is order-independent in the options — permuting the
option list never changes `generateQuestionHash`, because the normalized
option texts are sorted before being joined into the hashed string. -/
theorem generateQuestionHash_perm_invariant (questionText : String)
    (options options1 : List DetOption) (hperm : options.Perm options1) :
    generateQuestionHash questionText options = generateQuestionHash questionText options1 := by
  unfold generateQuestionHash
  have hmap : (options.map (fun opt => strLower (strTrim opt.text))).Perm
      (options1.map (fun opt => strLower (strTrim opt.text))) := hperm.map _
  have hsort : List.insertionSort (fun a b => a ≤ b)
      (options.map (fun opt => strLower (strTrim opt.text)))
      = List.insertionSort (fun a b => a ≤ b)
        (options1.map (fun opt => strLower (strTrim opt.text))) := by
    apply List.eq_of_perm_of_sorted (r := fun a b => a ≤ b)
    · exact ((List.perm_insertionSort _ _).trans hmap).trans
        (List.perm_insertionSort _ _).symm
    · exact List.sorted_insertionSort _ _
    · exact List.sorted_insertionSort _ _
  rw [hsort]

/-- C8 witness: a concrete three-option list hashed equal under a rotation. -/
theorem generateQuestionHash_perm_invariant_witness :
    generateQuestionHash "Which one?"
        [⟨"alpha", "1", false⟩, ⟨"beta", "2", false⟩, ⟨"gamma", "3", false⟩]
      = generateQuestionHash "Which one?"
        [⟨"gamma", "3", false⟩, ⟨"alpha", "1", false⟩, ⟨"beta", "2", false⟩] := by
  exact generateQuestionHash_perm_invariant "Which one?" _ _ (by decide)

/-! Auxiliary lemmas for the cache-eviction analysis. -/

theorem foldl_oldest_spec (p : String × CacheEntry) (l : List (String × CacheEntry)) :
    (l.foldl (fun a b => if a.2.timestamp < b.2.timestamp then a else b) p ∈ p :: l)
    ∧ ∀ r ∈ p :: l,
        (l.foldl (fun a b => if a.2.timestamp < b.2.timestamp then a else b) p).2.timestamp
          ≤ r.2.timestamp := by
  induction l generalizing p with
  | nil => simp
  | cons b t ih =>
      have hpick : (if p.2.timestamp < b.2.timestamp then p else b).2.timestamp ≤ p.2.timestamp
          ∧ (if p.2.timestamp < b.2.timestamp then p else b).2.timestamp ≤ b.2.timestamp := by
        by_cases hlt : p.2.timestamp < b.2.timestamp
        · rw [if_pos hlt]; exact ⟨le_refl _, le_of_lt hlt⟩
        · rw [if_neg hlt]; exact ⟨le_of_not_lt hlt, le_refl _⟩
      have hpickmem : (if p.2.timestamp < b.2.timestamp then p else b) ∈ p :: b :: t := by
        by_cases hlt : p.2.timestamp < b.2.timestamp
        · rw [if_pos hlt]; exact List.mem_cons_self _ _
        · rw [if_neg hlt]; exact List.mem_cons_of_mem _ (List.mem_cons_self _ _)
      obtain ⟨hmem, hle⟩ := ih (if p.2.timestamp < b.2.timestamp then p else b)
      rw [List.foldl_cons]
      constructor
      · rcases List.mem_cons.mp hmem with hm | hm
        · rw [hm]; exact hpickmem
        · exact List.mem_cons_of_mem _ (List.mem_cons_of_mem _ hm)
      · intro r hr
        have hroot := hle _ (List.mem_cons_self _ _)
        rcases List.mem_cons.mp hr with hr1 | hr1
        · subst hr1; exact le_trans hroot hpick.1
        · rcases List.mem_cons.mp hr1 with hr2 | hr2
          · subst hr2; exact le_trans hroot hpick.2
          · exact hle _ (List.mem_cons_of_mem _ hr2)

theorem oldestPair_spec (store : CacheStore) (hne : store ≠ []) :
    ∃ p, oldestPair store = some p ∧ p ∈ store ∧
      ∀ r ∈ store, p.2.timestamp ≤ r.2.timestamp := by
  cases store with
  | nil => exact absurd rfl hne
  | cons b t =>
      obtain ⟨hmem, hle⟩ := foldl_oldest_spec b t
      exact ⟨_, rfl, hmem, hle⟩

theorem alistSet_length {α : Type} (k : String) (v : α) (l : List (String × α)) :
    (alistSet k v l).length = if l.any (fun p => p.1 = k) then l.length else l.length + 1 := by
  unfold alistSet
  by_cases h : l.any (fun p => p.1 = k)
  · rw [if_pos h, if_pos h, List.length_map]
  · rw [if_neg h, if_neg h, List.length_append, List.length_cons, List.length_nil]

set_option maxRecDepth 16384 in
/-- C4 counterexample: with the store at the 50-entry cap, `set` on the
already-present key `"k1"` still evicts the oldest entry `"k0"` — the store
drops to 49 entries and `"k0"` is gone, contradicting the claim that
overwriting an already-present key does not evict anything else. -/
theorem cache_set_overwrite_still_evicts :
    demoCacheStore.length = 50
    ∧ (alistLookup "k1" demoCacheStore).isSome = true
    ∧ (alistLookup "k0" demoCacheStore).isSome = true
    ∧ alistLookup "k0" (setCacheEntry demoCacheStore "k1" demoAnswerData 1000) = none
    ∧ (setCacheEntry demoCacheStore "k1" demoAnswerData 1000).length = 49 := by
  refine ⟨by decide, by decide, by decide, by decide, by decide⟩

/-- C4 amended: `set` evicts the smallest-timestamp entry whenever the store
already holds at least 50 entries — also when the key being set is already
present (the eviction check precedes the presence check); starting from a
store within the cap the store never exceeds 50 entries after `set`; and
inserting a fresh key into a full store of 50 entries removes exactly the
smallest-timestamp entry and appends the new one. -/
theorem cache_set_cap_and_oldest_eviction :
    (∀ (store : CacheStore) (k : String) (d : AnswerData) (now : Nat),
      store.length ≤ 50 → (setCacheEntry store k d now).length ≤ 50)
    ∧ (∀ (store : CacheStore) (k : String) (d : AnswerData) (now : Nat),
        50 ≤ store.length →
        ∃ p, p ∈ store ∧ (∀ r ∈ store, p.2.timestamp ≤ r.2.timestamp) ∧
          setCacheEntry store k d now
            = alistSet k { data := d, timestamp := now }
                (store.eraseP (fun r => r.1 = p.1)))
    ∧ (∀ (store : CacheStore) (k : String) (d : AnswerData) (now : Nat),
        50 ≤ store.length → store.all (fun r => r.1 ≠ k) →
        ∃ p, p ∈ store ∧ (∀ r ∈ store, p.2.timestamp ≤ r.2.timestamp) ∧
          setCacheEntry store k d now
            = store.eraseP (fun r => r.1 = p.1) ++ [(k, { data := d, timestamp := now })]) := by
  have hfull : ∀ (store : CacheStore) (k : String) (d : AnswerData) (now : Nat),
      50 ≤ store.length →
      ∃ p, p ∈ store ∧ (∀ r ∈ store, p.2.timestamp ≤ r.2.timestamp) ∧
        setCacheEntry store k d now
          = alistSet k { data := d, timestamp := now }
              (store.eraseP (fun r => r.1 = p.1)) := by
    intro store k d now hlen
    have hne : store ≠ [] := by
      intro h
      rw [h] at hlen
      simp at hlen
    obtain ⟨p, hop, hmem, hle⟩ := oldestPair_spec store hne
    refine ⟨p, hmem, hle, ?_⟩
    unfold setCacheEntry removeOldestEntry
    rw [if_pos hlen, hop]
  refine ⟨?_, hfull, ?_⟩
  · intro store k d now hle
    by_cases hfullq : 50 ≤ store.length
    · have h50 : store.length = 50 := le_antisymm hle hfullq
      obtain ⟨p, hmem, _, heq⟩ := hfull store k d now hfullq
      rw [heq, alistSet_length]
      have herase : (store.eraseP (fun r => r.1 = p.1)).length + 1 = store.length :=
        List.length_eraseP_add_one hmem (by simp)
      have hel : (store.eraseP (fun r => r.1 = p.1)).length = 49 := by omega
      by_cases hany : (store.eraseP (fun r => r.1 = p.1)).any (fun q => q.1 = k)
      · rw [if_pos hany, hel]; omega
      · rw [if_neg hany, hel]
    · unfold setCacheEntry
      rw [if_neg hfullq, alistSet_length]
      by_cases hany : store.any (fun q => q.1 = k)
      · rw [if_pos hany]; exact hle
      · rw [if_neg hany]; omega
  · intro store k d now hlen hall
    obtain ⟨p, hmem, hle, heq⟩ := hfull store k d now hlen
    refine ⟨p, hmem, hle, ?_⟩
    rw [heq]
    unfold alistSet
    rw [if_neg]
    intro hany
    obtain ⟨q, hq, hqk⟩ := List.any_eq_true.mp hany
    have hqs : q ∈ store := (List.eraseP_sublist store).subset hq
    exact absurd (of_decide_eq_true hqk) (of_decide_eq_true ((List.all_eq_true.mp hall) q hqs))

/-- C4 amended witness: concrete applications at the 50-entry demo store
(overwrite of `"k1"`) and at a store within the cap. -/
theorem cache_set_cap_and_oldest_eviction_witness :
    (setCacheEntry [("a", { data := demoAnswerData, timestamp := 7 })] "b" demoAnswerData 9).length
      ≤ 50
    ∧ ∃ p, p ∈ demoCacheStore ∧
        (∀ r ∈ demoCacheStore, p.2.timestamp ≤ r.2.timestamp) ∧
        setCacheEntry demoCacheStore "k1" demoAnswerData 1000
          = alistSet "k1" { data := demoAnswerData, timestamp := 1000 }
              (demoCacheStore.eraseP (fun r => r.1 = p.1)) := by
  exact ⟨cache_set_cap_and_oldest_eviction.1 _ "b" demoAnswerData 9 (by decide),
    cache_set_cap_and_oldest_eviction.2.1 demoCacheStore "k1" demoAnswerData 1000 (by decide)⟩

/-- C6 counterexample: a container exposing only a code block (no question
text found by any selector) and two valid options is rejected —
`extractQuestion` returns no question at all instead of producing one whose
text is the fenced code, because the 10-character question-text check (line
197) runs before code extraction. -/
theorem detector_code_only_container_rejected :
    codeSnippetOf demoCodeOnlyContainer = some "let x = 1;"
    ∧ cleanedQuestionTextOf demoCodeOnlyContainer = none
    ∧ ((demoCodeOnlyContainer.optionElems.enum).filterMap
        (fun p => extractOption p.1 p.2)).length = 2
    ∧ extractQuestion demoCodeOnlyContainer = none := by
  refine ⟨by decide, by decide, by decide, by decide⟩

/-- C6 amended: when a produced question has both question text and a code
block, its text is the question text concatenated with the fenced code
(conjunct 1); but the sub-10-character rejection applies to the question
text alone and precedes code extraction, so a container with no question
text — code block or not — yields no question (conjunct 2), as does one
whose question text is shorter than 10 characters (conjunct 3); the
fenced-code-only branch is consequently unreachable. -/
theorem detector_combines_code_after_text_floor :
    (∀ (c : Container) (q : DetectedQuestion) (t cs : String),
      extractQuestion c = some q → cleanedQuestionTextOf c = some t →
      codeSnippetOf c = some cs → cs ≠ "" →
      q.question = t ++ "\n\n```javascript\n" ++ cs ++ "\n```")
    ∧ (∀ c : Container, cleanedQuestionTextOf c = none → extractQuestion c = none)
    ∧ (∀ (c : Container) (t : String), cleanedQuestionTextOf c = some t →
        t.data.length < 10 → extractQuestion c = none) := by
  refine ⟨?_, ?_, ?_⟩
  · intro c q t cs hq hct hcs hcsne
    simp only [extractQuestion, hct] at hq
    by_cases hlen : t.data.length < 10
    · rw [if_pos hlen] at hq
      cases hq
    · rw [if_neg hlen] at hq
      have htne : t ≠ "" := by
        intro h
        rw [h] at hlen
        simp at hlen
      rw [hcs] at hq
      by_cases hopt : ((c.optionElems.enum).filterMap (fun p => extractOption p.1 p.2)).length < 2
      · rw [if_pos hopt] at hq
        cases hq
      · rw [if_neg hopt] at hq
        cases hq
        simp [codeTruthy, htne, hcsne]
  · intro c hct
    simp only [extractQuestion, hct]
  · intro c t hct hlen
    simp only [extractQuestion, hct]
    rw [if_pos hlen]

/-- C6 amended witness: on a concrete container with a 21-character question
text and a code block, the produced question's text is the concatenation;
the code-only and short-text containers are rejected. -/
theorem detector_combines_code_after_text_floor_witness :
    (∃ q, extractQuestion demoBothContainer = some q ∧
      q.question = "What does this print?" ++ "\n\n```javascript\n" ++ "let x = 1;" ++ "\n```")
    ∧ extractQuestion demoCodeOnlyContainer = none := by
  constructor
  · cases hq : extractQuestion demoBothContainer with
    | none => exact absurd hq (by decide)
    | some q =>
        exact ⟨q, rfl, detector_combines_code_after_text_floor.1 demoBothContainer q
          "What does this print?" "let x = 1;" hq (by decide) (by decide) (by decide)⟩
  · exact detector_combines_code_after_text_floor.2.1 demoCodeOnlyContainer (by decide)

/-! Auxiliary lemmas for the parser result invariants. -/

theorem letterOption_mem (options : List SOption) (l : Char) (opt : SOption)
    (h : letterOption options l = some opt) : opt ∈ options := by
  unfold letterOption at h
  by_cases h65 : l.toNat < 65
  · rw [if_pos h65] at h; cases h
  · rw [if_neg h65] at h; exact List.get?_mem h

theorem validateLettersGo_mem (options : List SOption) :
    ∀ (letters seen : List Char) (acc : List String) (a : String),
      a ∈ validateLettersGo options letters seen acc →
      a ∈ acc ∨ ∃ o ∈ options, a = o.text := by
  intro letters
  induction letters with
  | nil => intro seen acc a ha; exact Or.inl ha
  | cons l rest ih =>
      intro seen acc a ha
      cases hlo : letterOption options l with
      | none =>
          simp only [validateLettersGo, hlo] at ha
          exact ih seen acc a ha
      | some opt =>
          simp only [validateLettersGo, hlo] at ha
          by_cases hseen : seen.contains l = true
          · rw [if_pos hseen] at ha
            exact ih seen acc a ha
          · rw [if_neg hseen] at ha
            rcases ih _ _ a ha with hacc | hex
            · rcases List.mem_append.mp hacc with h1 | h1
              · exact Or.inl h1
              · rcases List.mem_singleton.mp h1 with h2
                exact Or.inr ⟨opt, letterOption_mem options l opt hlo, h2⟩
            · exact Or.inr hex

theorem validateLettersGo_length (options : List SOption) :
    ∀ (letters seen : List Char) (acc : List String),
      (validateLettersGo options letters seen acc).length ≤ acc.length + letters.length := by
  intro letters
  induction letters with
  | nil => intro seen acc; simp [validateLettersGo]
  | cons l rest ih =>
      intro seen acc
      cases hlo : letterOption options l with
      | none =>
          simp only [validateLettersGo, hlo]
          have := ih seen acc
          simp only [List.length_cons]
          omega
      | some opt =>
          simp only [validateLettersGo, hlo]
          by_cases hseen : seen.contains l = true
          · rw [if_pos hseen]
            have := ih seen acc
            simp only [List.length_cons]
            omega
          · rw [if_neg hseen]
            have := ih (l :: seen) (acc ++ [opt.text])
            simp only [List.length_append, List.length_cons] at this ⊢
            simp only [List.length_nil] at this
            omega

theorem singleExactLetter_shape (maxL : Char) (ap : List Char)
    (h : singleExactLetter maxL ap = true) : ∃ c, ap = [c] := by
  cases ap with
  | nil => simp [singleExactLetter] at h
  | cons c rest =>
      cases rest with
      | nil => exact ⟨c, rfl⟩
      | cons d rest2 => simp [singleExactLetter] at h

theorem extractLetters_single_length (maxL : Char) (ap : List Char) :
    (extractLetters (some "single") maxL ap).length ≤ 1 := by
  unfold extractLetters
  rw [if_pos rfl]
  by_cases hex : singleExactLetter maxL ap = true
  · rw [if_pos hex]
    obtain ⟨c, hc⟩ := singleExactLetter_shape maxL ap hex
    rw [hc]
    simp
  · rw [if_neg hex]
    cases findBoundedLetter maxL none ap <;> simp

theorem textFallbackGo_mem (questionType : Option String) (respLower : List Char) :
    ∀ (opts : List SOption) (acc : List String) (a : String),
      a ∈ textFallbackGo questionType respLower opts acc →
      a ∈ acc ∨ ∃ o ∈ opts, a = o.text := by
  intro opts
  induction opts with
  | nil => intro acc a ha; exact Or.inl ha
  | cons o rest ih =>
      intro acc a ha
      simp only [textFallbackGo] at ha
      have hmem : ∀ (acc1 : List String), a ∈ textFallbackGo questionType respLower rest acc1 →
          a ∈ acc1 ∨ ∃ o1 ∈ o :: rest, a = o1.text := by
        intro acc1 h1
        rcases ih acc1 a h1 with h2 | ⟨o2, ho2, he⟩
        · exact Or.inl h2
        · exact Or.inr ⟨o2, List.mem_cons_of_mem _ ho2, he⟩
      split at ha
      · split at ha
        · exact hmem acc ha
        · rcases hmem _ ha with h2 | h2
          · rcases List.mem_append.mp h2 with h3 | h3
            · exact Or.inl h3
            · exact Or.inr ⟨o, List.mem_cons_self _ _, List.mem_singleton.mp h3⟩
          · exact Or.inr h2
      · exact hmem acc ha

theorem textFallbackGo_single_length (respLower : List Char) :
    ∀ (opts : List SOption) (acc : List String), acc.length ≤ 1 →
      (textFallbackGo (some "single") respLower opts acc).length ≤ 1 := by
  intro opts
  induction opts with
  | nil => intro acc hacc; exact hacc
  | cons o rest ih =>
      intro acc hacc
      simp only [textFallbackGo]
      split
      · split
        · exact ih acc hacc
        · rename_i hpush
          have hacc0 : acc.length = 0 := by
            by_cases h0 : acc.length > 0
            · exact absurd (by simp [h0]) hpush
            · omega
          refine ih _ ?_
          simp [hacc0]
      · exact ih acc hacc

theorem finalAnswers_mem (responseText : List Char) (options : List SOption)
    (questionType : Option String) (a : String)
    (h : a ∈ finalAnswers responseText options questionType) :
    ∃ o ∈ options, a = o.text := by
  simp only [finalAnswers] at h
  split at h
  · split at h
    · have h1 : a ∈ textFallbackGo questionType (lowerList responseText) options [] :=
        List.take_subset 1 _ h
      exact (textFallbackGo_mem questionType _ options [] a h1).resolve_left
        (List.not_mem_nil a)
    · exact (textFallbackGo_mem questionType _ options [] a h).resolve_left
        (List.not_mem_nil a)
  · exact (validateLettersGo_mem options _ [] [] a h).resolve_left (List.not_mem_nil a)

theorem finalAnswers_single_length (responseText : List Char) (options : List SOption) :
    (finalAnswers responseText options (some "single")).length ≤ 1 := by
  have hfb := textFallbackGo_single_length (lowerList responseText) options [] (by simp)
  simp only [finalAnswers, validateLetters]
  split
  · split
    · exact List.length_take_le 1 _
    · exact hfb
  · have h1 := validateLettersGo_length options
      (extractLetters (some "single") (maxOptionLetter options.length)
        (splitExplanation responseText).1) [] []
    have h2 := extractLetters_single_length (maxOptionLetter options.length)
      (splitExplanation responseText).1
    simp only [List.length_nil] at h1
    omega

/-- C3: whenever the parser returns, the answer list is non-empty, each
returned answer is the text of one of the supplied options, and in single
mode the answer list holds exactly one element — stray multi-letter text
never produces a multi-answer result in single mode. -/
theorem parse_result_answers_invariant (geminiResponse : GeminiResponse)
    (options : List SOption) (questionType : Option String) (r : ParseResult)
    (h : parseGeminiQuizResponse geminiResponse options questionType = .ok r) :
    r.answers ≠ []
    ∧ (∀ a ∈ r.answers, ∃ o ∈ options, a = o.text)
    ∧ (questionType = some "single" → r.answers.length = 1) := by
  cases hcand : geminiResponse.candidates with
  | nil =>
      simp only [parseGeminiQuizResponse, hcand] at h
      cases h
  | cons candidate rest =>
      simp only [parseGeminiQuizResponse, hcand] at h
      by_cases hrt : extractResponseText candidate = []
      · rw [if_pos hrt] at h; cases h
      · rw [if_neg hrt] at h
        by_cases hfa : (finalAnswers (extractResponseText candidate) options questionType).length
            = 0
        · rw [if_pos hfa] at h; cases h
        · rw [if_neg hfa] at h
          have hr : r.answers
              = finalAnswers (extractResponseText candidate) options questionType := by
            cases h
            rfl
          refine ⟨?_, ?_, ?_⟩
          · intro hne
            rw [hr] at hne
            exact hfa (by rw [hne]; rfl)
          · intro a ha
            rw [hr] at ha
            exact finalAnswers_mem _ _ _ a ha
          · intro hqt
            subst hqt
            rw [hr]
            have hle := finalAnswers_single_length (extractResponseText candidate) options
            omega

/-- C3 witness: the invariant applied at a concrete single-mode parse. -/
theorem parse_result_answers_invariant_witness :
    (["y"] : List String) ≠ []
    ∧ (∀ a ∈ (["y"] : List String),
        ∃ o ∈ ([⟨"x", none⟩, ⟨"y", none⟩] : List SOption), a = o.text)
    ∧ (["y"] : List String).length = 1 := by
  have h := parse_result_answers_invariant (respOfText "B") [⟨"x", none⟩, ⟨"y", none⟩]
    (some "single") { answers := ["y"], explanation := none, confidence := 100 } (by rfl)
  exact ⟨h.1, h.2.1, h.2.2 rfl⟩

end GeminiExt
